import Mathlib

/-!
Shallow embedding of the `zengrad` scalar autodiff core (`src/core/value.py`).

Nodes of the computation graph live in an arena (a list); a node's identity is
its index in the arena, mirroring CPython object identity.  Scalar `data` and
`grad` fields are modelled as rationals: every value appearing in the spec's
scenarios is exactly representable, and all operations used by the claims
(add, mul, integer power, the derived neg/sub/div) are exact on these inputs.
Numeric exponents are modelled as integers (all exponents used by the code and
the spec are the integral constants −1 and user-supplied integer powers).
Python raises `ZeroDivisionError` on `0.0 ** k` for negative `k`, and an
`AssertionError` when `Value.__pow__` receives a non-numeric exponent; both are
modelled with an `Except` error monad.
-/

namespace Zengrad

/-- Gradient rule tag: which operation produced a node, together with the
operand identities captured by the corresponding `_backward` closure in
`value.py` (`self`/`other` references; for `a * a` both captures are the
same node, here the same index). `leaf` is the default no-op rule. -/
inductive Op where
  | leaf : Op
  | add : Nat → Nat → Op
  | mul : Nat → Nat → Op
  | pow : Nat → Int → Op
  deriving DecidableEq, Repr

/-- Embedding of the `Value` object: `data`, `grad`, the gradient-rule tag
(standing for the captured `_backward` closure) and `prev`, the deduplicated
operand identity list standing for the Python set `self._prev = set(_children)`
(for `a * a` the set collapses to a single element). `grad` starts at `0.0`
(`Value.__init__`). -/
structure Value where
  data : ℚ
  grad : ℚ
  op : Op
  prev : List Nat
  deriving DecidableEq, Repr

/-- The node arena: index = object identity. -/
abbrev Graph := List Value

def defaultValue : Value := ⟨0, 0, Op.leaf, []⟩

def dataOf (g : Graph) (i : Nat) : ℚ := (g.getD i defaultValue).data

def gradOf (g : Graph) (i : Nat) : ℚ := (g.getD i defaultValue).grad

def opOf (g : Graph) (i : Nat) : Op := (g.getD i defaultValue).op

def prevOf (g : Graph) (i : Nat) : List Nat := (g.getD i defaultValue).prev

/-- Overwrite a node's `grad` (assignment, used for the `self.grad = 1.0` seed). -/
def setGrad (g : Graph) (i : Nat) (q : ℚ) : Graph :=
  g.set i { g.getD i defaultValue with grad := q }

/-- `node.grad += d` — the accumulating update used by every gradient rule. -/
def addGrad (g : Graph) (i : Nat) (d : ℚ) : Graph :=
  setGrad g i (gradOf g i + d)

/-- A fresh leaf node, as built by `Value(x)`: grad 0, no operands, no-op rule. -/
def mkLeaf (x : ℚ) : Value := ⟨x, 0, Op.leaf, []⟩

/-- An argument to a binary operation: either an existing node (a `Value`)
or a bare Python number, which the operation promotes to a fresh leaf
(`other if isinstance(other, Value) else Value(other)`). -/
inductive PyVal where
  | node : Nat → PyVal
  | const : ℚ → PyVal

/-- Promote a bare number to a fresh leaf node; a node argument is returned as is. -/
def promote (g : Graph) (v : PyVal) : Graph × Nat :=
  match v with
  | .node i => (g, i)
  | .const c => (g ++ [mkLeaf c], g.length)

/-- `set((self, other))`: the operand set of a binary result, collapsing the
duplicate when both operands are the same object. -/
def mkPrev (i j : Nat) : List Nat := if i = j then [i] else [i, j]

/-- Python exceptions raised by the embedded code. -/
inductive PyErr where
  | assertionError : String → PyErr
  | zeroDivisionError : PyErr
  deriving DecidableEq, Repr

/-- `Value.__add__`: promote the right operand, then allocate the sum node
with gradient-rule tag `add i j`. Returns the extended arena and the new id. -/
def vadd (g : Graph) (i : Nat) (other : PyVal) : Graph × Nat :=
  let p := promote g other
  (p.1 ++ [⟨dataOf p.1 i + dataOf p.1 p.2, 0, Op.add i p.2, mkPrev i p.2⟩], p.1.length)

/-- `Value.__mul__`: promote the right operand, then allocate the product node
with gradient-rule tag `mul i j`. -/
def vmul (g : Graph) (i : Nat) (other : PyVal) : Graph × Nat :=
  let p := promote g other
  (p.1 ++ [⟨dataOf p.1 i * dataOf p.1 p.2, 0, Op.mul i p.2, mkPrev i p.2⟩], p.1.length)

/-- The exponent passed to `Value.__pow__`: a plain number or (erroneously)
another graph node. -/
inductive PowArg where
  | node : Nat → PowArg
  | num : Int → PowArg

def powAssertMsg : String := "only supporting int/float powers for now"

/-- `Value.__pow__`: a node-typed exponent trips the
`assert isinstance(other, (int, float))` immediately; with a numeric exponent
`self.data**other` is computed, which in Python raises `ZeroDivisionError`
when the base is zero and the exponent negative. -/
def vpow (g : Graph) (i : Nat) (other : PowArg) : Except PyErr (Graph × Nat) :=
  match other with
  | .node _ => .error (.assertionError powAssertMsg)
  | .num k =>
      if dataOf g i = 0 ∧ k < 0 then .error .zeroDivisionError
      else .ok (g ++ [⟨dataOf g i ^ k, 0, Op.pow i k, [i]⟩], g.length)

/-- `Value.__neg__`: `self * -1` (promotes `-1` to a fresh leaf inside `__mul__`). -/
def vneg (g : Graph) (i : Nat) : Graph × Nat := vmul g i (.const (-1))

/-- `Value.__sub__`: `self + (-other)`. For a node operand this first builds
`Negate(other)`; for a bare number Python negates the number itself and
`__add__` promotes it. -/
def vsub (g : Graph) (i : Nat) (other : PyVal) : Graph × Nat :=
  match other with
  | .node j =>
      let p := vneg g j
      vadd p.1 i (.node p.2)
  | .const c => vadd g i (.const (-c))

/-- `Value.__rsub__` (`c - a` for a bare number `c`): `other + (-self)`, which
resolves to `(-self) + c` via `__radd__` and promotion. -/
def vrsub (g : Graph) (i : Nat) (c : ℚ) : Graph × Nat :=
  let p := vneg g i
  vadd p.1 p.2 (.const c)

/-- `Value.__truediv__`: `self * other**-1`. For a node operand this goes
through `Value.__pow__` (raising on a zero denominator); for a bare number
Python computes `c**-1` as a plain number (raising on `c = 0`) and `__mul__`
promotes the reciprocal. -/
def vdiv (g : Graph) (i : Nat) (other : PyVal) : Except PyErr (Graph × Nat) :=
  match other with
  | .node j =>
      match vpow g j (.num (-1)) with
      | .ok p => .ok (vmul p.1 i (.node p.2))
      | .error e => .error e
  | .const c =>
      if c = 0 then .error .zeroDivisionError
      else .ok (vmul g i (.const c⁻¹))

/-- `Value.__rtruediv__` (`c / a` for a bare number `c`): `other * self**-1`,
which resolves to `(self**-1) * c` via `__rmul__` and promotion. -/
def vrtruediv (g : Graph) (i : Nat) (c : ℚ) : Except PyErr (Graph × Nat) :=
  match vpow g i (.num (-1)) with
  | .ok p => .ok (vmul p.1 p.2 (.const c))
  | .error e => .error e

/-- `Value.__radd__` (`c + a`): `self + other`. -/
def vradd (g : Graph) (i : Nat) (c : ℚ) : Graph × Nat := vadd g i (.const c)

/-- `Value.__rmul__` (`c * a`): `self * other`. -/
def vrmul (g : Graph) (i : Nat) (c : ℚ) : Graph × Nat := vmul g i (.const c)

mutual

/-- The `build_topo` recursion of `Value.backward`: depth-first post-order over
`prev` with an identity-based visited set, threaded as explicit state
`(visited, topo)`. The `fuel` argument only bounds the recursion depth; for a
well-formed arena (operands precede their consumers) any `fuel > v` is enough,
so it never alters the traversal actually performed by the code. -/
def buildTopoAux (g : Graph) : Nat → Nat → List Nat × List Nat → List Nat × List Nat
  | 0, _, st => st
  | fuel + 1, v, st =>
      if v ∈ st.1 then st
      else
        let st1 := (v :: st.1, st.2)
        let st2 := buildTopoChildren g fuel (prevOf g v) st1
        (st2.1, st2.2 ++ [v])
  termination_by fuel _ _ => (fuel, 0)

/-- The `for child in v._prev: build_topo(child)` loop. -/
def buildTopoChildren (g : Graph) : Nat → List Nat → List Nat × List Nat → List Nat × List Nat
  | _, [], st => st
  | fuel, c :: cs, st => buildTopoChildren g fuel cs (buildTopoAux g fuel c st)
  termination_by fuel cs _ => (fuel, cs.length + 1)

end

/-- The topological order built by `backward` from terminal `v`:
`build_topo(self)` starting from empty visited set and output list. -/
def buildTopo (g : Graph) (v : Nat) : List Nat :=
  (buildTopoAux g (g.length + 1) v ([], [])).2

/-- One `v._backward()` call: replay node `u`'s gradient rule, mutating its
operands' `grad` fields exactly as the captured closure does (two sequential
`+=` updates for the binary rules; re-reading state between them). The power
rule computes `self.data**(other-1)`, which raises `ZeroDivisionError` on a
zero base with a negative exponent. -/
def runRule (g : Graph) (u : Nat) : Except PyErr Graph :=
  match opOf g u with
  | .leaf => .ok g
  | .add i j =>
      let g1 := addGrad g i (gradOf g u)
      .ok (addGrad g1 j (gradOf g1 u))
  | .mul i j =>
      let g1 := addGrad g i (dataOf g j * gradOf g u)
      .ok (addGrad g1 j (dataOf g1 i * gradOf g1 u))
  | .pow i k =>
      if dataOf g i = 0 ∧ k - 1 < 0 then .error .zeroDivisionError
      else .ok (addGrad g i ((k : ℚ) * dataOf g i ^ (k - 1) * gradOf g u))

/-- The `for v in reversed(topo): v._backward()` loop, applied to an already
reversed list; a raised exception aborts the remaining iterations. -/
def replay (g : Graph) : List Nat → Except PyErr Graph
  | [] => .ok g
  | u :: rest =>
      match runRule g u with
      | .ok g1 => replay g1 rest
      | .error e => .error e

/-- `Value.backward`: build the topological order, seed `self.grad = 1.0`
(an assignment, not an accumulation), then replay every node's gradient rule
in reverse emission order. Grads are not reset first. -/
def backward (g : Graph) (v : Nat) : Except PyErr Graph :=
  let topo := buildTopo g v
  let g1 := setGrad g v 1
  replay g1 topo.reverse

/-- Read a grad out of a `backward` result (`none` if an exception escaped). -/
def gradOfE (r : Except PyErr Graph) (i : Nat) : Option ℚ :=
  match r with
  | .ok g => some (gradOf g i)
  | .error _ => none

/-- Read a data field out of a fallible construction result. -/
def dataOfE (r : Except PyErr (Graph × Nat)) (i : Nat) : Option ℚ :=
  match r with
  | .ok p => some (dataOf p.1 i)
  | .error _ => none

/-- Forward data of the node built by a fallible construction. -/
def resDataE (r : Except PyErr (Graph × Nat)) : Option ℚ :=
  match r with
  | .ok p => some (dataOf p.1 p.2)
  | .error _ => none

/-- Run `backward` from the node built by a fallible construction and read
the grad of node `i` (`none` if anything raised). -/
def backGradE (r : Except PyErr (Graph × Nat)) (i : Nat) : Option ℚ :=
  match r with
  | .ok p => gradOfE (backward p.1 p.2) i
  | .error _ => none

/-- Two successive `backward()` calls on the same terminal, no grad reset
in between. -/
def backwardTwice (g : Graph) (v : Nat) : Except PyErr Graph :=
  match backward g v with
  | .ok g1 => backward g1 v
  | .error e => .error e

/-! ### Concrete scenario graphs from the spec -/

/-- `a = Value(3.0); b = a * a` — `a` at id 0, `b` at id 1. -/
def sharedG : Graph := (vmul [mkLeaf 3] 0 (.node 0)).1

/-- `a=Value(2.0)`, `b=Value(-3.0)`, `c=Value(10.0)`, `d=a*b`, `e=d+c`,
`f=Value(-2.0)`, `L=e*f` — ids 0..6 in that order. -/
def affineG : Graph :=
  let g0 : Graph := [mkLeaf 2, mkLeaf (-3), mkLeaf 10]
  let p1 := vmul g0 0 (.node 1)
  let p2 := vadd p1.1 p1.2 (.node 2)
  let g3 := p2.1 ++ [mkLeaf (-2)]
  (vmul g3 p2.2 (.node 5)).1

/-- `x = Value(2.0); y = x + x; z = y * y` — ids 0, 1, 2. -/
def diamondG : Graph :=
  let p1 := vadd [mkLeaf 2] 0 (.node 0)
  (vmul p1.1 p1.2 (.node p1.2)).1

/-- `x = Value(3.0); u = x * x; t = u * u` — ids 0, 1, 2 (a depth-2 chain). -/
def chainG : Graph :=
  let p1 := vmul [mkLeaf 3] 0 (.node 0)
  (vmul p1.1 p1.2 (.node p1.2)).1

/-- Two numerically equal but distinct leaves and their sum:
`a = Value(1.0); b = Value(1.0); s = a + b` — ids 0, 1, 2. -/
def twinG : Graph := (vadd [mkLeaf 1, mkLeaf 1] 0 (.node 1)).1

/-- A single zero leaf. -/
def zeroLeafG : Graph := [mkLeaf 0]

/-- `a = Value(1.0); b = Value(0.0)` — a division-by-zero setup. -/
def oneZeroG : Graph := [mkLeaf 1, mkLeaf 0]

/-- A single leaf of value 1. -/
def oneLeafG : Graph := [mkLeaf 1]

/-- A single leaf of value 2. -/
def twoLeafG : Graph := [mkLeaf 2]

/-! ### Graph well-formedness, reachability and the topological-order property -/

/-- Well-formedness invariant of arenas built by the public operations: every
operation allocates its result after its operands, so each node's operands
have strictly smaller ids. This is the "acyclic by construction" contract. -/
def WF (g : Graph) : Prop := ∀ u, u < g.length → ∀ c ∈ prevOf g u, c < u

instance decidableWF (g : Graph) : Decidable (WF g) :=
  inferInstanceAs (Decidable (∀ u, u < g.length → ∀ c ∈ prevOf g u, c < u))

/-- `Reaches g v u`: node `u` is reachable from `v` along operand edges
(reflexively). This is the set of nodes `backward(v)` must process. -/
inductive Reaches (g : Graph) : Nat → Nat → Prop where
  | refl (v : Nat) : Reaches g v v
  | step {v u c : Nat} : Reaches g v u → c ∈ prevOf g u → Reaches g v c

/-- The topological-order property: every operand of every listed node occurs
strictly earlier in the list. -/
def OrderOK (g : Graph) (l : List Nat) : Prop :=
  ∀ i (h : i < l.length), ∀ c ∈ prevOf g (l.get ⟨i, h⟩), c ∈ l.take i

/-! ### Basic lemmas about the mutable-state primitives -/

theorem length_setGrad (g : Graph) (i : Nat) (q : ℚ) :
    (setGrad g i q).length = g.length := by
  simp [setGrad]

theorem dataOf_setGrad (g : Graph) (i : Nat) (q : ℚ) (p : Nat) :
    dataOf (setGrad g i q) p = dataOf g p := by
  by_cases h : i = p
  · subst h
    by_cases hl : i < g.length
    · simp [dataOf, setGrad, List.getElem?_set_self hl]
    · simp [dataOf, setGrad, List.set_eq_of_length_le (Nat.le_of_not_lt hl)]
  · simp [dataOf, setGrad, List.getElem?_set_ne h]

theorem opOf_setGrad (g : Graph) (i : Nat) (q : ℚ) (p : Nat) :
    opOf (setGrad g i q) p = opOf g p := by
  by_cases h : i = p
  · subst h
    by_cases hl : i < g.length
    · simp [opOf, setGrad, List.getElem?_set_self hl]
    · simp [opOf, setGrad, List.set_eq_of_length_le (Nat.le_of_not_lt hl)]
  · simp [opOf, setGrad, List.getElem?_set_ne h]

theorem prevOf_setGrad (g : Graph) (i : Nat) (q : ℚ) (p : Nat) :
    prevOf (setGrad g i q) p = prevOf g p := by
  by_cases h : i = p
  · subst h
    by_cases hl : i < g.length
    · simp [prevOf, setGrad, List.getElem?_set_self hl]
    · simp [prevOf, setGrad, List.set_eq_of_length_le (Nat.le_of_not_lt hl)]
  · simp [prevOf, setGrad, List.getElem?_set_ne h]

theorem gradOf_setGrad (g : Graph) {i : Nat} (hi : i < g.length) (q : ℚ) (p : Nat) :
    gradOf (setGrad g i q) p = if p = i then q else gradOf g p := by
  by_cases h : p = i
  · subst h
    simp [gradOf, setGrad, List.getElem?_set_self hi]
  · simp [gradOf, setGrad, List.getElem?_set_ne (Ne.symm h), h]

theorem dataOf_addGrad (g : Graph) (i : Nat) (d : ℚ) (p : Nat) :
    dataOf (addGrad g i d) p = dataOf g p := dataOf_setGrad ..

theorem gradOf_addGrad (g : Graph) {i : Nat} (hi : i < g.length) (d : ℚ) (p : Nat) :
    gradOf (addGrad g i d) p = if p = i then gradOf g p + d else gradOf g p := by
  unfold addGrad
  rw [gradOf_setGrad g hi]
  by_cases h : p = i
  · subst h; simp
  · simp [h]

theorem dataOf_append_left (g l : Graph) {p : Nat} (hp : p < g.length) :
    dataOf (g ++ l) p = dataOf g p := by
  simp [dataOf, List.getElem?_append_left hp]

theorem gradOf_append_left (g l : Graph) {p : Nat} (hp : p < g.length) :
    gradOf (g ++ l) p = gradOf g p := by
  simp [gradOf, List.getElem?_append_left hp]

theorem length_addGrad (g : Graph) (i : Nat) (d : ℚ) :
    (addGrad g i d).length = g.length := length_setGrad ..

theorem dataOf_append_two (g : Graph) (a b : Value) {p : Nat} (hp : p < g.length) :
    dataOf ((g ++ [a]) ++ [b]) p = dataOf g p := by
  rw [List.append_assoc]; exact dataOf_append_left _ _ hp

theorem gradOf_append_two (g : Graph) (a b : Value) {p : Nat} (hp : p < g.length) :
    gradOf ((g ++ [a]) ++ [b]) p = gradOf g p := by
  rw [List.append_assoc]; exact gradOf_append_left _ _ hp

theorem dataOf_append_three (g : Graph) (a b c : Value) {p : Nat} (hp : p < g.length) :
    dataOf (((g ++ [a]) ++ [b]) ++ [c]) p = dataOf g p := by
  rw [List.append_assoc, List.append_assoc]; exact dataOf_append_left _ _ hp

theorem gradOf_append_three (g : Graph) (a b c : Value) {p : Nat} (hp : p < g.length) :
    gradOf (((g ++ [a]) ++ [b]) ++ [c]) p = gradOf g p := by
  rw [List.append_assoc, List.append_assoc]; exact gradOf_append_left _ _ hp

theorem dataOf_append_four (g : Graph) (a b c d : Value) {p : Nat} (hp : p < g.length) :
    dataOf ((((g ++ [a]) ++ [b]) ++ [c]) ++ [d]) p = dataOf g p := by
  rw [List.append_assoc, List.append_assoc, List.append_assoc]
  exact dataOf_append_left _ _ hp

theorem gradOf_append_four (g : Graph) (a b c d : Value) {p : Nat} (hp : p < g.length) :
    gradOf ((((g ++ [a]) ++ [b]) ++ [c]) ++ [d]) p = gradOf g p := by
  rw [List.append_assoc, List.append_assoc, List.append_assoc]
  exact gradOf_append_left _ _ hp

/-! ### Claim theorems -/

/-- Claim C1: gradient contributions to a shared operand accumulate (`+=`)
rather than overwrite. Concretely, for `a = Value(3.0)` and `b = a * a`,
`backward()` from `b` yields `a.grad = 6`, not `3`; and in general a
multiplication's gradient rule adds its contribution for each captured operand
slot onto the operand's existing grad (two additions when both slots are the
same node). -/
theorem shared_operand_grad_accumulates :
    gradOfE (backward sharedG 1) 0 = some 6 ∧
    (∀ (g : Graph) (u i j : Nat), opOf g u = Op.mul i j →
        i < u → j < u → u < g.length →
        ∃ g1, runRule g u = Except.ok g1 ∧
          ∀ p : Nat, gradOf g1 p =
            gradOf g p + (if p = i then dataOf g j * gradOf g u else 0)
              + (if p = j then dataOf g i * gradOf g u else 0)) := by
  constructor
  · norm_num [sharedG, backward, buildTopo, buildTopoAux, buildTopoChildren, replay,
      runRule, vmul, promote, mkPrev, mkLeaf, dataOf, gradOf, opOf, prevOf, setGrad,
      addGrad, gradOfE, defaultValue]
  · intro g u i j hop hi hj hu
    have hilen : i < g.length := Nat.lt_trans hi hu
    have hjlen : j < g.length := Nat.lt_trans hj hu
    have hiu : u ≠ i := Nat.ne_of_gt hi
    have hju : u ≠ j := Nat.ne_of_gt hj
    refine ⟨addGrad (addGrad g i (dataOf g j * gradOf g u)) j
        (dataOf (addGrad g i (dataOf g j * gradOf g u)) i *
          gradOf (addGrad g i (dataOf g j * gradOf g u)) u), ?_, ?_⟩
    · simp only [runRule, hop]
    · intro p
      have e1 : dataOf (addGrad g i (dataOf g j * gradOf g u)) i = dataOf g i :=
        dataOf_addGrad ..
      have e2 : gradOf (addGrad g i (dataOf g j * gradOf g u)) u = gradOf g u := by
        rw [gradOf_addGrad g hilen]; simp [hiu]
      have hjlen1 : j < (addGrad g i (dataOf g j * gradOf g u)).length := by
        rw [length_addGrad]; exact hjlen
      rw [gradOf_addGrad _ hjlen1, e1, e2, gradOf_addGrad g hilen]
      rcases Decidable.em (p = i) with h1 | h1 <;> rcases Decidable.em (p = j) with h2 | h2
      · subst h1; subst h2; simp
      · subst h1; simp [h2]
      · subst h2; simp [h1]
      · simp [h1, h2]

/-- Claim C1 witness: the general accumulation statement applied to the
`b = a * a` graph, where both operand slots of node 1 are node 0. -/
theorem shared_operand_grad_accumulates_witness :
    opOf sharedG 1 = Op.mul 0 0 ∧ (0 : Nat) < 1 ∧ 1 < sharedG.length ∧
    ∃ g1, runRule sharedG 1 = Except.ok g1 ∧
      ∀ p : Nat, gradOf g1 p =
        gradOf sharedG p + (if p = 0 then dataOf sharedG 0 * gradOf sharedG 1 else 0)
          + (if p = 0 then dataOf sharedG 0 * gradOf sharedG 1 else 0) :=
  ⟨rfl, Nat.zero_lt_one, by simp [sharedG, vmul, promote],
    shared_operand_grad_accumulates.2 sharedG 1 0 0 rfl Nat.zero_lt_one Nat.zero_lt_one
      (by simp [sharedG, vmul, promote])⟩

/-- Claim C3 counterexample: in the literal affine scenario the terminal's
forward value is `e.data * f.data = 4 * (-2) = -8`, not the `4.0` the claim
asserts. -/
theorem affine_forward_not_four : ¬ dataOf affineG 6 = 4 := by
  norm_num [affineG, vmul, vadd, promote, mkPrev, mkLeaf, dataOf, defaultValue]

/-- Claim C3 (amended): in the literal affine scenario `L.data = -8` (the
claimed `4.0` is `e.data`, not `L.data`), and after `L.backward()` the
gradients are exactly as claimed: `a.grad=6`, `b.grad=-4`, `c.grad=-2`,
`f.grad=4`, `d.grad=-2`, `e.grad=-2`. -/
theorem affine_scenario_values :
    dataOf affineG 6 = -8 ∧
    gradOfE (backward affineG 6) 0 = some 6 ∧
    gradOfE (backward affineG 6) 1 = some (-4) ∧
    gradOfE (backward affineG 6) 2 = some (-2) ∧
    gradOfE (backward affineG 6) 5 = some 4 ∧
    gradOfE (backward affineG 6) 3 = some (-2) ∧
    gradOfE (backward affineG 6) 4 = some (-2) := by
  norm_num [affineG, backward, buildTopo, buildTopoAux, buildTopoChildren, replay,
    runRule, vmul, vadd, promote, mkPrev, mkLeaf, dataOf, gradOf, opOf, prevOf,
    setGrad, addGrad, gradOfE, defaultValue]

/-- Claim C4 counterexample: in the diamond graph `x=2; y=x+x; z=y*y`,
`backward()` from `z` gives `x.grad = 16` (`z = 4x²`, so `dz/dx = 8x = 16`),
not the claimed `32.0`. -/
theorem diamond_grad_not_thirtytwo : gradOfE (backward diamondG 2) 0 ≠ some 32 := by
  norm_num [diamondG, backward, buildTopo, buildTopoAux, buildTopoChildren, replay,
    runRule, vmul, vadd, promote, mkPrev, mkLeaf, dataOf, gradOf, opOf, prevOf,
    setGrad, addGrad, gradOfE, defaultValue]

/-- Claim C4 (amended): the diamond graph accumulates through both
reconverging paths: `x.grad = 16 = 8x`, twice the single-path contribution 8
(an overwriting implementation would give 8). -/
theorem diamond_grad_sixteen : gradOfE (backward diamondG 2) 0 = some 16 := by
  norm_num [diamondG, backward, buildTopo, buildTopoAux, buildTopoChildren, replay,
    runRule, vmul, vadd, promote, mkPrev, mkLeaf, dataOf, gradOf, opOf, prevOf,
    setGrad, addGrad, gradOfE, defaultValue]

/-- Claim C5 counterexample: in the depth-2 chain `x=3; u=x*x; t=u*u`, a leaf's
grad after two successive `backward()` calls is 324, which is not twice the 108
obtained after one call (interior grads left over from the first call inflate
the second replay), refuting the claimed universal doubling. -/
theorem double_backward_not_always_double :
    gradOfE (backward chainG 2) 0 = some 108 ∧
    gradOfE (backwardTwice chainG 2) 0 = some 324 ∧ (324 : ℚ) ≠ 2 * 108 := by
  refine ⟨?_, ?_, by norm_num⟩ <;>
    norm_num [chainG, backward, backwardTwice, buildTopo, buildTopoAux,
      buildTopoChildren, replay, runRule, vmul, vadd, promote, mkPrev, mkLeaf,
      dataOf, gradOf, opOf, prevOf, setGrad, addGrad, gradOfE, defaultValue]

/-- Claim C5 (amended): `backward()` indeed does not reset grads, so a second
call accumulates a further replay on top of the first; for a leaf consumed
directly by the terminal the grad exactly doubles (`a.grad`: 6 then 12 in
`b = a*a`), but for deeper leaves the stale interior grads make the second
call add more than the first (`x.grad`: 108 then 324 in the depth-2 chain), so
the doubling is not universal. -/
theorem double_backward_accumulates :
    gradOfE (backward sharedG 1) 0 = some 6 ∧
    gradOfE (backwardTwice sharedG 1) 0 = some 12 ∧
    gradOfE (backward chainG 2) 0 = some 108 ∧
    gradOfE (backwardTwice chainG 2) 0 = some 324 := by
  refine ⟨?_, ?_, ?_, ?_⟩ <;>
    norm_num [sharedG, chainG, backward, backwardTwice, buildTopo, buildTopoAux,
      buildTopoChildren, replay, runRule, vmul, vadd, promote, mkPrev, mkLeaf,
      dataOf, gradOf, opOf, prevOf, setGrad, addGrad, gradOfE, defaultValue]

/-- Claim C6: two distinct leaves with numerically equal data are distinct
graph vertices: both appear in the traversal of `a + b` (which is
duplicate-free), and each receives its own unit gradient — they are neither
merged nor do they terminate the traversal early. -/
theorem equal_data_leaves_distinct :
    dataOf twinG 0 = dataOf twinG 1 ∧ (0 : Nat) ≠ 1 ∧
    0 ∈ buildTopo twinG 2 ∧ 1 ∈ buildTopo twinG 2 ∧ (buildTopo twinG 2).Nodup ∧
    gradOfE (backward twinG 2) 0 = some 1 ∧
    gradOfE (backward twinG 2) 1 = some 1 := by
  refine ⟨?_, by norm_num, ?_, ?_, ?_, ?_, ?_⟩ <;>
    norm_num [twinG, backward, buildTopo, buildTopoAux, buildTopoChildren, replay,
      runRule, vadd, promote, mkPrev, mkLeaf, dataOf, gradOf, opOf, prevOf,
      setGrad, addGrad, gradOfE, defaultValue]

/-- Claim C7 counterexample: with a plain numeric exponent the operation does
not always succeed: `Value(0.0) ** -1` raises `ZeroDivisionError` (Python
refuses to raise zero to a negative power), so no result node with
`data = 0.0 ** -1` is produced. -/
theorem pow_zero_base_negative_exponent_raises :
    vpow zeroLeafG 0 (PowArg.num (-1)) = Except.error PyErr.zeroDivisionError := by
  norm_num [vpow, zeroLeafG, mkLeaf, dataOf, defaultValue]

/-- Claim C7 (amended): `Power(a, k)` with a node-typed exponent fails
immediately at construction time with the `assert` error and produces no node;
with a plain numeric exponent it succeeds with `result.data = a.data ** k`
except when `a.data = 0` and `k < 0`, where Python raises `ZeroDivisionError`
instead. -/
theorem pow_constant_exponent_contract :
    (∀ (g : Graph) (i j : Nat),
        vpow g i (PowArg.node j) = Except.error (PyErr.assertionError powAssertMsg)) ∧
    (∀ (g : Graph) (i : Nat) (k : Int), ¬(dataOf g i = 0 ∧ k < 0) →
        vpow g i (PowArg.num k) =
          Except.ok (g ++ [⟨dataOf g i ^ k, 0, Op.pow i k, [i]⟩], g.length)) := by
  constructor
  · intro g i j; rfl
  · intro g i k h
    simp only [vpow]
    rw [if_neg h]

/-- Claim C7 witness: the amended contract applied to `Value(2.0) ** -1`. -/
theorem pow_constant_exponent_contract_witness :
    ¬(dataOf twoLeafG 0 = 0 ∧ (-1 : Int) < 0) ∧
    vpow twoLeafG 0 (PowArg.num (-1)) =
      Except.ok (twoLeafG ++ [⟨dataOf twoLeafG 0 ^ (-1 : Int), 0, Op.pow 0 (-1), [0]⟩],
        twoLeafG.length) := by
  have h : ¬(dataOf twoLeafG 0 = 0 ∧ (-1 : Int) < 0) := by
    norm_num [twoLeafG, mkLeaf, dataOf, defaultValue]
  exact ⟨h, pow_constant_exponent_contract.2 twoLeafG 0 (-1) h⟩

/-- Claim C8 counterexample: `Divide(a, b)` with `b.data = 0` does not produce
a non-finite value — it raises `ZeroDivisionError` at construction time, from
`Power(b, -1)` computing `0.0 ** -1`. -/
theorem divide_by_zero_raises_concrete :
    vdiv oneZeroG 0 (PyVal.node 1) = Except.error PyErr.zeroDivisionError := by
  norm_num [vdiv, vpow, oneZeroG, mkLeaf, dataOf, defaultValue]

/-- Claim C8 (amended): `Divide(a, b)` with `b.data = 0` raises
`ZeroDivisionError` at construction time (surfaced from `Power(b, -1)`); no
result node and no non-finite value is produced, so nothing is propagated
downstream. -/
theorem divide_by_zero_raises (g : Graph) (i j : Nat) (h : dataOf g j = 0) :
    vdiv g i (PyVal.node j) = Except.error PyErr.zeroDivisionError := by
  simp [vdiv, vpow, h]

/-- Claim C8 witness: the amended statement at `a = Value(1.0), b = Value(0.0)`. -/
theorem divide_by_zero_raises_witness :
    dataOf oneZeroG 1 = 0 ∧
    vdiv oneZeroG 0 (PyVal.node 1) = Except.error PyErr.zeroDivisionError :=
  ⟨rfl, divide_by_zero_raises oneZeroG 0 1 rfl⟩

/-- Claim C9 counterexample: `Negate(a)` does not allocate exactly one new
node: it expands to `a * Value(-1)`, allocating the promoted constant leaf and
the multiply node — two new nodes, so the arena grows by 2, not 1. -/
theorem negate_allocates_two_nodes :
    (vneg oneLeafG 0).1.length ≠ oneLeafG.length + 1 := by
  norm_num [vneg, vmul, promote, oneLeafG, mkLeaf]

/-- Claim C9 (amended): no operation mutates the existing arena — every
operation (the primitives, both promotion forms, and all the sugar
operations) returns the original arena extended only with its new nodes, so
the `data` and `grad` of every pre-existing node are unchanged at call time —
but the allocation counts are not "exactly one new Node": a primitive with
node operands allocates one node (`Add`, `Multiply`, `Power`); implicit
constant promotion adds one extra leaf (`Add`/`Multiply`/`radd`/`rmul` with a
bare number: 2); the sugar operations allocate their expansions (`Negate`: 2,
`Subtract` of a node: 3, of a number: 2, reverse `Subtract`: 4, `Divide` of a
node or number: 2, reverse `Divide`: 3). -/
theorem ops_allocation_and_frame :
    (∀ (g : Graph) (i j : Nat),
        (vadd g i (PyVal.node j)).1.length = g.length + 1 ∧
        ∀ p, p < g.length →
          dataOf (vadd g i (PyVal.node j)).1 p = dataOf g p ∧
          gradOf (vadd g i (PyVal.node j)).1 p = gradOf g p) ∧
    (∀ (g : Graph) (i j : Nat),
        (vmul g i (PyVal.node j)).1.length = g.length + 1 ∧
        ∀ p, p < g.length →
          dataOf (vmul g i (PyVal.node j)).1 p = dataOf g p ∧
          gradOf (vmul g i (PyVal.node j)).1 p = gradOf g p) ∧
    (∀ (g : Graph) (i : Nat) (c : ℚ),
        (vadd g i (PyVal.const c)).1.length = g.length + 2 ∧
        ∀ p, p < g.length →
          dataOf (vadd g i (PyVal.const c)).1 p = dataOf g p ∧
          gradOf (vadd g i (PyVal.const c)).1 p = gradOf g p) ∧
    (∀ (g : Graph) (i : Nat) (c : ℚ),
        (vmul g i (PyVal.const c)).1.length = g.length + 2 ∧
        ∀ p, p < g.length →
          dataOf (vmul g i (PyVal.const c)).1 p = dataOf g p ∧
          gradOf (vmul g i (PyVal.const c)).1 p = gradOf g p) ∧
    (∀ (g : Graph) (i : Nat) (c : ℚ),
        (vradd g i c).1.length = g.length + 2 ∧
        ∀ p, p < g.length →
          dataOf (vradd g i c).1 p = dataOf g p ∧
          gradOf (vradd g i c).1 p = gradOf g p) ∧
    (∀ (g : Graph) (i : Nat) (c : ℚ),
        (vrmul g i c).1.length = g.length + 2 ∧
        ∀ p, p < g.length →
          dataOf (vrmul g i c).1 p = dataOf g p ∧
          gradOf (vrmul g i c).1 p = gradOf g p) ∧
    (∀ (g : Graph) (i : Nat),
        (vneg g i).1.length = g.length + 2 ∧
        ∀ p, p < g.length →
          dataOf (vneg g i).1 p = dataOf g p ∧ gradOf (vneg g i).1 p = gradOf g p) ∧
    (∀ (g : Graph) (i j : Nat),
        (vsub g i (PyVal.node j)).1.length = g.length + 3 ∧
        ∀ p, p < g.length →
          dataOf (vsub g i (PyVal.node j)).1 p = dataOf g p ∧
          gradOf (vsub g i (PyVal.node j)).1 p = gradOf g p) ∧
    (∀ (g : Graph) (i : Nat) (c : ℚ),
        (vsub g i (PyVal.const c)).1.length = g.length + 2 ∧
        ∀ p, p < g.length →
          dataOf (vsub g i (PyVal.const c)).1 p = dataOf g p ∧
          gradOf (vsub g i (PyVal.const c)).1 p = gradOf g p) ∧
    (∀ (g : Graph) (i : Nat) (c : ℚ),
        (vrsub g i c).1.length = g.length + 4 ∧
        ∀ p, p < g.length →
          dataOf (vrsub g i c).1 p = dataOf g p ∧
          gradOf (vrsub g i c).1 p = gradOf g p) ∧
    (∀ (g : Graph) (i : Nat) (k : Int), ¬(dataOf g i = 0 ∧ k < 0) →
        ∃ r, vpow g i (PowArg.num k) = Except.ok r ∧ r.1.length = g.length + 1 ∧
          ∀ p, p < g.length →
            dataOf r.1 p = dataOf g p ∧ gradOf r.1 p = gradOf g p) ∧
    (∀ (g : Graph) (i j : Nat), dataOf g j ≠ 0 →
        ∃ r, vdiv g i (PyVal.node j) = Except.ok r ∧ r.1.length = g.length + 2 ∧
          ∀ p, p < g.length →
            dataOf r.1 p = dataOf g p ∧ gradOf r.1 p = gradOf g p) ∧
    (∀ (g : Graph) (i : Nat) (c : ℚ), c ≠ 0 →
        ∃ r, vdiv g i (PyVal.const c) = Except.ok r ∧ r.1.length = g.length + 2 ∧
          ∀ p, p < g.length →
            dataOf r.1 p = dataOf g p ∧ gradOf r.1 p = gradOf g p) ∧
    (∀ (g : Graph) (i : Nat) (c : ℚ), dataOf g i ≠ 0 →
        ∃ r, vrtruediv g i c = Except.ok r ∧ r.1.length = g.length + 3 ∧
          ∀ p, p < g.length →
            dataOf r.1 p = dataOf g p ∧ gradOf r.1 p = gradOf g p) := by
  refine ⟨?_, ?_, ?_, ?_, ?_, ?_, ?_, ?_, ?_, ?_, ?_, ?_, ?_, ?_⟩
  · intro g i j
    exact ⟨by simp [vadd, promote], fun p hp =>
      ⟨dataOf_append_left _ _ hp, gradOf_append_left _ _ hp⟩⟩
  · intro g i j
    exact ⟨by simp [vmul, promote], fun p hp =>
      ⟨dataOf_append_left _ _ hp, gradOf_append_left _ _ hp⟩⟩
  · intro g i c
    exact ⟨by simp [vadd, promote], fun p hp =>
      ⟨dataOf_append_two _ _ _ hp, gradOf_append_two _ _ _ hp⟩⟩
  · intro g i c
    exact ⟨by simp [vmul, promote], fun p hp =>
      ⟨dataOf_append_two _ _ _ hp, gradOf_append_two _ _ _ hp⟩⟩
  · intro g i c
    exact ⟨by simp [vradd, vadd, promote], fun p hp =>
      ⟨dataOf_append_two _ _ _ hp, gradOf_append_two _ _ _ hp⟩⟩
  · intro g i c
    exact ⟨by simp [vrmul, vmul, promote], fun p hp =>
      ⟨dataOf_append_two _ _ _ hp, gradOf_append_two _ _ _ hp⟩⟩
  · intro g i
    exact ⟨by simp [vneg, vmul, promote], fun p hp =>
      ⟨dataOf_append_two _ _ _ hp, gradOf_append_two _ _ _ hp⟩⟩
  · intro g i j
    exact ⟨by simp [vsub, vneg, vadd, vmul, promote], fun p hp =>
      ⟨dataOf_append_three _ _ _ _ hp, gradOf_append_three _ _ _ _ hp⟩⟩
  · intro g i c
    exact ⟨by simp [vsub, vadd, promote], fun p hp =>
      ⟨dataOf_append_two _ _ _ hp, gradOf_append_two _ _ _ hp⟩⟩
  · intro g i c
    exact ⟨by simp [vrsub, vneg, vadd, vmul, promote], fun p hp =>
      ⟨dataOf_append_four _ _ _ _ _ hp, gradOf_append_four _ _ _ _ _ hp⟩⟩
  · intro g i k h
    refine ⟨(g ++ [⟨dataOf g i ^ k, 0, Op.pow i k, [i]⟩], g.length), ?_, ?_, ?_⟩
    · simp only [vpow]
      rw [if_neg h]
    · simp
    · intro p hp
      exact ⟨dataOf_append_left _ _ hp, gradOf_append_left _ _ hp⟩
  · intro g i j h
    have hv : vpow g j (PowArg.num (-1)) =
        Except.ok (g ++ [⟨dataOf g j ^ (-1 : Int), 0, Op.pow j (-1), [j]⟩], g.length) := by
      simp only [vpow]
      rw [if_neg]
      simp [h]
    refine ⟨vmul (g ++ [⟨dataOf g j ^ (-1 : Int), 0, Op.pow j (-1), [j]⟩]) i
        (PyVal.node g.length), ?_, ?_, ?_⟩
    · simp only [vdiv, hv]
    · simp [vmul, promote]
    · intro p hp
      exact ⟨dataOf_append_two _ _ _ hp, gradOf_append_two _ _ _ hp⟩
  · intro g i c hc
    refine ⟨vmul g i (PyVal.const c⁻¹), ?_, ?_, ?_⟩
    · simp only [vdiv]
      rw [if_neg hc]
    · simp [vmul, promote]
    · intro p hp
      exact ⟨dataOf_append_two _ _ _ hp, gradOf_append_two _ _ _ hp⟩
  · intro g i c h
    have hv : vpow g i (PowArg.num (-1)) =
        Except.ok (g ++ [⟨dataOf g i ^ (-1 : Int), 0, Op.pow i (-1), [i]⟩], g.length) := by
      simp only [vpow]
      rw [if_neg]
      simp [h]
    refine ⟨vmul (g ++ [⟨dataOf g i ^ (-1 : Int), 0, Op.pow i (-1), [i]⟩]) g.length
        (PyVal.const c), ?_, ?_, ?_⟩
    · simp only [vrtruediv, hv]
    · simp [vmul, promote]
    · intro p hp
      exact ⟨dataOf_append_three _ _ _ _ hp, gradOf_append_three _ _ _ _ hp⟩

/-- Claim C9 witness: the amended statement at concrete one- and two-leaf
arenas, exercising a sugar operation and a fallible division branch. -/
theorem ops_allocation_and_frame_witness :
    ((0 : Nat) < oneLeafG.length ∧
      (vneg oneLeafG 0).1.length = oneLeafG.length + 2 ∧
      dataOf (vneg oneLeafG 0).1 0 = dataOf oneLeafG 0 ∧
      gradOf (vneg oneLeafG 0).1 0 = gradOf oneLeafG 0) ∧
    (dataOf oneZeroG 0 ≠ 0 ∧
      ∃ r, vdiv oneZeroG 1 (PyVal.node 0) = Except.ok r ∧
        r.1.length = oneZeroG.length + 2 ∧
        ∀ p, p < oneZeroG.length →
          dataOf r.1 p = dataOf oneZeroG p ∧ gradOf r.1 p = gradOf oneZeroG p) := by
  obtain ⟨-, -, -, -, -, -, hneg, -, -, -, -, hdivn, -, -⟩ := ops_allocation_and_frame
  have h0 : (0 : Nat) < oneLeafG.length := by norm_num [oneLeafG]
  have h1 : dataOf oneZeroG 0 ≠ 0 := by norm_num [oneZeroG, mkLeaf, dataOf, defaultValue]
  obtain ⟨hlen, hframe⟩ := hneg oneLeafG 0
  exact ⟨⟨h0, hlen, (hframe 0 h0).1, (hframe 0 h0).2⟩, h1, hdivn oneZeroG 1 0 h1⟩

/-- Claim C10 counterexample: `c / a` is not accepted for every plain number
`c` and node `a`: with `a.data = 0` the underlying `Power(a, -1)` raises
`ZeroDivisionError` at construction time (here `1 / Value(0.0)`). -/
theorem rdiv_zero_raises_concrete :
    vrtruediv zeroLeafG 0 1 = Except.error PyErr.zeroDivisionError := by
  norm_num [vrtruediv, vpow, zeroLeafG, mkLeaf, dataOf, defaultValue]

/-- Claim C10 (amended): implicit constant promotion works on the left of
`Subtract` and `Divide`: for every plain number `c` and leaf node `a`,
`c - a` is accepted, wraps `c` as a fresh leaf, has forward value
`c - a.data`, and its backward gradients match `Subtract(Value(c), a)` (both
give `a.grad = -1`); `c / a` behaves likewise with value `c / a.data` and
gradients matching `Divide(Value(c), a)` (both give `a.grad = -c/a.data²`),
provided `a.data ≠ 0` — with `a.data = 0` both raise `ZeroDivisionError`. -/
theorem left_constant_promotion_sub_div :
    (∀ c x : ℚ,
        dataOf (vrsub [mkLeaf x] 0 c).1 (vrsub [mkLeaf x] 0 c).2 = c - x ∧
        opOf (vrsub [mkLeaf x] 0 c).1 3 = Op.leaf ∧
        dataOf (vrsub [mkLeaf x] 0 c).1 3 = c ∧
        gradOfE (backward (vrsub [mkLeaf x] 0 c).1 (vrsub [mkLeaf x] 0 c).2) 0 =
          some (-1) ∧
        dataOf (vsub [mkLeaf x, mkLeaf c] 1 (PyVal.node 0)).1
          (vsub [mkLeaf x, mkLeaf c] 1 (PyVal.node 0)).2 = c - x ∧
        gradOfE (backward (vsub [mkLeaf x, mkLeaf c] 1 (PyVal.node 0)).1
          (vsub [mkLeaf x, mkLeaf c] 1 (PyVal.node 0)).2) 0 = some (-1)) ∧
    (∀ c x : ℚ, x ≠ 0 →
        resDataE (vrtruediv [mkLeaf x] 0 c) = some (c / x) ∧
        backGradE (vrtruediv [mkLeaf x] 0 c) 0 = some (-(c / (x * x))) ∧
        resDataE (vdiv [mkLeaf x, mkLeaf c] 1 (PyVal.node 0)) = some (c / x) ∧
        backGradE (vdiv [mkLeaf x, mkLeaf c] 1 (PyVal.node 0)) 0 =
          some (-(c / (x * x)))) := by
  constructor
  · intro c x
    refine ⟨?_, ?_, ?_, ?_, ?_, ?_⟩ <;>
      · norm_num [vrsub, vsub, vneg, vadd, vmul, promote, mkPrev, mkLeaf, backward,
          buildTopo, buildTopoAux, buildTopoChildren, replay, runRule, dataOf, gradOf,
          opOf, prevOf, setGrad, addGrad, gradOfE, defaultValue]
        try ring
  · intro c x hx
    refine ⟨?_, ?_, ?_, ?_⟩ <;>
      · norm_num [vrtruediv, vdiv, vpow, vmul, promote, mkPrev, mkLeaf, backward,
          buildTopo, buildTopoAux, buildTopoChildren, replay, runRule, dataOf, gradOf,
          opOf, prevOf, setGrad, addGrad, gradOfE, resDataE, backGradE, defaultValue, hx]
        field_simp
        try ring
        try (left; simp [zpow_two, pow_two])

/-- Claim C10 witness: the division half of the amended statement at
`c = 1`, `a = Value(2.0)`. -/
theorem left_constant_promotion_sub_div_witness :
    (2 : ℚ) ≠ 0 ∧ resDataE (vrtruediv [mkLeaf 2] 0 1) = some ((1 : ℚ) / 2) := by
  have h : (2 : ℚ) ≠ 0 := by norm_num
  exact ⟨h, (left_constant_promotion_sub_div.2 1 2 h).1⟩

/-! ### The depth-first post-order traversal is a topological sort -/

theorem Reaches.trans {g : Graph} {a b c : Nat}
    (h1 : Reaches g a b) (h2 : Reaches g b c) : Reaches g a c := by
  induction h2 with
  | refl => exact h1
  | step _ hc ih => exact Reaches.step ih hc

/-- A list satisfying the order property is closed under taking operands. -/
theorem orderOK_closed {g : Graph} {l : List Nat} (h : OrderOK g l) :
    ∀ u ∈ l, ∀ c ∈ prevOf g u, c ∈ l := by
  intro u hu c hc
  obtain ⟨⟨i, hi⟩, rfl⟩ := List.mem_iff_get.mp hu
  exact List.take_subset i l (h i hi c hc)

/-- Appending a node whose operands are already listed preserves the order
property. -/
theorem orderOK_append {g : Graph} {l : List Nat} {v : Nat} (h : OrderOK g l)
    (hv : ∀ c ∈ prevOf g v, c ∈ l) : OrderOK g (l ++ [v]) := by
  intro i hi c hc
  rcases Nat.lt_or_ge i l.length with hlt | hge
  · have e : (l ++ [v]).get ⟨i, hi⟩ = l.get ⟨i, hlt⟩ := by
      simp [List.get_eq_getElem, List.getElem_append_left hlt]
    rw [e] at hc
    rw [List.take_append_of_le_length (Nat.le_of_lt hlt)]
    exact h i hlt c hc
  · have hi' : i = l.length := by
      have : i < l.length + 1 := by simpa using hi
      omega
    subst hi'
    have e : (l ++ [v]).get ⟨l.length, hi⟩ = v := by
      simp [List.get_eq_getElem]
    rw [e] at hc
    rw [List.take_left]
    exact hv c hc

/-- Master invariant of the `build_topo` recursion: starting from a state
whose emitted list is duplicate-free, operand-closed in order, and covered by
the visited set, and in which every visited-but-unemitted ("gray") node
exceeds the current node `v`, the call appends a fresh block of nodes
reachable from `v`, visits exactly what it appends, preserves the order
property, and leaves `v` emitted. Any `fuel > v` suffices because operand ids
strictly decrease along the recursion. -/
theorem buildTopoAux_spec (g : Graph) (hwf : WF g) :
    ∀ v, v < g.length → ∀ fuel, v < fuel → ∀ visited topo,
      (∀ u ∈ topo, u ∈ visited) →
      (∀ u ∈ visited, u ∉ topo → v < u) →
      topo.Nodup → OrderOK g topo →
      ∃ d : List Nat,
        (buildTopoAux g fuel v (visited, topo)).2 = topo ++ d ∧
        (∀ u ∈ d, u ∉ visited) ∧
        (∀ u ∈ d, Reaches g v u) ∧
        (∀ u, u ∈ (buildTopoAux g fuel v (visited, topo)).1 ↔ u ∈ visited ∨ u ∈ d) ∧
        (topo ++ d).Nodup ∧ OrderOK g (topo ++ d) ∧ v ∈ topo ++ d := by
  intro v
  induction v using Nat.strong_induction_on with
  | _ v IH =>
  intro hv fuel hfuel visited topo h1 h2 h3 h4
  obtain ⟨f, rfl⟩ : ∃ f, fuel = f + 1 := ⟨fuel - 1, by omega⟩
  by_cases hvis : v ∈ visited
  · have eq1 : buildTopoAux g (f + 1) v (visited, topo) = (visited, topo) := by
      simp only [buildTopoAux, if_pos hvis]
    have hvtopo : v ∈ topo := by
      by_contra hvt
      exact absurd (h2 v hvis hvt) (Nat.lt_irrefl v)
    refine ⟨[], ?_, ?_, ?_, ?_, ?_, ?_, ?_⟩
    · rw [eq1, List.append_nil]
    · intro u hu; exact absurd hu (List.not_mem_nil u)
    · intro u hu; exact absurd hu (List.not_mem_nil u)
    · intro u; rw [eq1]; simp
    · rw [List.append_nil]; exact h3
    · rw [List.append_nil]; exact h4
    · rw [List.append_nil]; exact hvtopo
  · have hch : ∀ c ∈ prevOf g v, c < v := hwf v hv
    have inner : ∀ (cs : List Nat), (∀ c ∈ cs, c < v) →
        ∀ vis tp, (∀ u ∈ tp, u ∈ vis) → v ∈ vis → v ∉ tp →
          (∀ u ∈ vis, u ∉ tp → v ≤ u) → tp.Nodup → OrderOK g tp →
          ∃ d : List Nat,
            (buildTopoChildren g f cs (vis, tp)).2 = tp ++ d ∧
            (∀ u ∈ d, u ∉ vis) ∧
            (∀ u ∈ d, ∃ c ∈ cs, Reaches g c u) ∧
            (∀ u, u ∈ (buildTopoChildren g f cs (vis, tp)).1 ↔ u ∈ vis ∨ u ∈ d) ∧
            (tp ++ d).Nodup ∧ OrderOK g (tp ++ d) ∧ (∀ c ∈ cs, c ∈ tp ++ d) := by
      intro cs
      induction cs with
      | nil =>
        intro _ vis tp h1' _ _ _ h5' h6'
        have eq2 : buildTopoChildren g f [] (vis, tp) = (vis, tp) := by
          simp only [buildTopoChildren]
        refine ⟨[], ?_, ?_, ?_, ?_, ?_, ?_, ?_⟩
        · rw [eq2, List.append_nil]
        · intro u hu; exact absurd hu (List.not_mem_nil u)
        · intro u hu; exact absurd hu (List.not_mem_nil u)
        · intro u; rw [eq2]; simp
        · rw [List.append_nil]; exact h5'
        · rw [List.append_nil]; exact h6'
        · intro c hc; exact absurd hc (List.not_mem_nil c)
      | cons c cs ihcs =>
        intro hlt vis tp ht hvv hvt hgray hnd hord
        have hcv : c < v := hlt c (List.mem_cons_self c cs)
        have hclen : c < g.length := Nat.lt_trans hcv hv
        have hcf : c < f := by omega
        obtain ⟨d1, e1, fr1, re1, me1, nd1, or1, in1⟩ :=
          IH c hcv hclen f hcf vis tp ht
            (fun u hu hnu => Nat.lt_of_lt_of_le hcv (hgray u hu hnu)) hnd hord
        have hd1sub : ∀ u ∈ d1, u ∈ (buildTopoAux g f c (vis, tp)).2 := by
          intro u hu; rw [e1]; exact List.mem_append_right tp hu
        have ht' : ∀ u ∈ (buildTopoAux g f c (vis, tp)).2,
            u ∈ (buildTopoAux g f c (vis, tp)).1 := by
          intro u hu
          rw [e1] at hu
          rcases List.mem_append.mp hu with h | h
          · exact (me1 u).mpr (Or.inl (ht u h))
          · exact (me1 u).mpr (Or.inr h)
        have hvv' : v ∈ (buildTopoAux g f c (vis, tp)).1 := (me1 v).mpr (Or.inl hvv)
        have hvt' : v ∉ (buildTopoAux g f c (vis, tp)).2 := by
          rw [e1]
          intro hmem
          rcases List.mem_append.mp hmem with h | h
          · exact hvt h
          · exact fr1 v h hvv
        have hgray' : ∀ u ∈ (buildTopoAux g f c (vis, tp)).1,
            u ∉ (buildTopoAux g f c (vis, tp)).2 → v ≤ u := by
          intro u hu hnu
          rcases (me1 u).mp hu with h | h
          · refine hgray u h ?_
            intro htp
            exact hnu (by rw [e1]; exact List.mem_append_left d1 htp)
          · exact absurd (hd1sub u h) hnu
        have hnd' : (buildTopoAux g f c (vis, tp)).2.Nodup := by rw [e1]; exact nd1
        have hord' : OrderOK g (buildTopoAux g f c (vis, tp)).2 := by rw [e1]; exact or1
        obtain ⟨d2, e2, fr2, re2, me2, nd2, or2, in2⟩ :=
          ihcs (fun x hx => hlt x (List.mem_cons_of_mem c hx))
            (buildTopoAux g f c (vis, tp)).1 (buildTopoAux g f c (vis, tp)).2
            ht' hvv' hvt' hgray' hnd' hord'
        refine ⟨d1 ++ d2, ?_, ?_, ?_, ?_, ?_, ?_, ?_⟩
        · show (buildTopoChildren g f (c :: cs) (vis, tp)).2 = tp ++ (d1 ++ d2)
          have : buildTopoChildren g f (c :: cs) (vis, tp) =
              buildTopoChildren g f cs (buildTopoAux g f c (vis, tp)) := by
            simp only [buildTopoChildren]
          rw [this, e2, e1, List.append_assoc]
        · intro u hu
          rcases List.mem_append.mp hu with h | h
          · exact fr1 u h
          · intro hv'
            exact fr2 u h ((me1 u).mpr (Or.inl hv'))
        · intro u hu
          rcases List.mem_append.mp hu with h | h
          · exact ⟨c, List.mem_cons_self c cs, re1 u h⟩
          · obtain ⟨c', hc', hr⟩ := re2 u h
            exact ⟨c', List.mem_cons_of_mem c hc', hr⟩
        · intro u
          have : buildTopoChildren g f (c :: cs) (vis, tp) =
              buildTopoChildren g f cs (buildTopoAux g f c (vis, tp)) := by
            simp only [buildTopoChildren]
          rw [this]
          constructor
          · intro hu
            rcases (me2 u).mp hu with h | h
            · rcases (me1 u).mp h with h' | h'
              · exact Or.inl h'
              · exact Or.inr (List.mem_append_left d2 h')
            · exact Or.inr (List.mem_append_right d1 h)
          · intro hu
            rcases hu with h | h
            · exact (me2 u).mpr (Or.inl ((me1 u).mpr (Or.inl h)))
            · rcases List.mem_append.mp h with h' | h'
              · exact (me2 u).mpr (Or.inl ((me1 u).mpr (Or.inr h')))
              · exact (me2 u).mpr (Or.inr h')
        · rw [← List.append_assoc]
          rw [e1] at nd2
          exact nd2
        · rw [← List.append_assoc]
          rw [e1] at or2
          exact or2
        · intro x hx
          rw [← List.append_assoc]
          rcases List.mem_cons.mp hx with h | h
          · subst h
            exact List.mem_append_left d2 in1
          · rw [e1] at in2
            exact in2 x h
    obtain ⟨d, e, fr, re, me, nd, ord, cin⟩ :=
      inner (prevOf g v) hch (v :: visited) topo
        (fun u hu => List.mem_cons_of_mem v (h1 u hu))
        (List.mem_cons_self v visited)
        (fun hvt => hvis (h1 v hvt))
        (by
          intro u hu hnu
          rcases List.mem_cons.mp hu with h | h
          · exact Nat.le_of_eq h.symm
          · exact Nat.le_of_lt (h2 u h hnu))
        h3 h4
    have eaux : buildTopoAux g (f + 1) v (visited, topo) =
        ((buildTopoChildren g f (prevOf g v) (v :: visited, topo)).1,
          (buildTopoChildren g f (prevOf g v) (v :: visited, topo)).2 ++ [v]) := by
      simp only [buildTopoAux, if_neg hvis]
    refine ⟨d ++ [v], ?_, ?_, ?_, ?_, ?_, ?_, ?_⟩
    · rw [eaux]
      show (buildTopoChildren g f (prevOf g v) (v :: visited, topo)).2 ++ [v] =
        topo ++ (d ++ [v])
      rw [e, List.append_assoc]
    · intro u hu
      rcases List.mem_append.mp hu with h | h
      · intro hv'
        exact fr u h (List.mem_cons_of_mem v hv')
      · rw [List.mem_singleton.mp h]
        exact hvis
    · intro u hu
      rcases List.mem_append.mp hu with h | h
      · obtain ⟨c, hc, hr⟩ := re u h
        exact Reaches.trans (Reaches.step (Reaches.refl v) hc) hr
      · rw [List.mem_singleton.mp h]
        exact Reaches.refl v
    · intro u
      rw [eaux]
      show u ∈ (buildTopoChildren g f (prevOf g v) (v :: visited, topo)).1 ↔ _
      rw [me u]
      constructor
      · intro hu
        rcases hu with h | h
        · rcases List.mem_cons.mp h with h' | h'
          · exact Or.inr (List.mem_append_right d (by simp [h']))
          · exact Or.inl h'
        · exact Or.inr (List.mem_append_left [v] h)
      · intro hu
        rcases hu with h | h
        · exact Or.inl (List.mem_cons_of_mem v h)
        · rcases List.mem_append.mp h with h' | h'
          · exact Or.inr h'
          · exact Or.inl (by simp [List.mem_singleton.mp h'])
    · rw [← List.append_assoc]
      refine (List.nodup_append).mpr ⟨nd, List.nodup_singleton v, ?_⟩
      intro x hx hxv
      rw [List.mem_singleton.mp hxv] at hx
      rcases List.mem_append.mp hx with h | h
      · exact hvis (h1 v h)
      · exact fr v h (List.mem_cons_self v visited)
    · rw [← List.append_assoc]
      exact orderOK_append ord cin
    · exact List.mem_append_right topo (List.mem_append_right d (by simp))

/-- Claim C2: for every well-formed arena (operands allocated before their
consumers, as every public operation guarantees) and terminal `v`, the
depth-first post-order traversal of `backward()` lists every node reachable
from `v` exactly once (duplicate-free, and membership coincides with
reachability), and every operand of a listed node appears strictly before that
node in the order. -/
theorem backward_topo_order_spec (g : Graph) (hwf : WF g) (v : Nat)
    (hv : v < g.length) :
    (buildTopo g v).Nodup ∧
    (∀ u, u ∈ buildTopo g v ↔ Reaches g v u) ∧
    OrderOK g (buildTopo g v) := by
  obtain ⟨d, e, fr, re, me, nd, ord, hvm⟩ :=
    buildTopoAux_spec g hwf v hv (g.length + 1) (by omega) [] []
      (by intro u hu; exact absurd hu (List.not_mem_nil u))
      (by intro u hu; exact absurd hu (List.not_mem_nil u))
      List.nodup_nil
      (by intro i hi; exact absurd hi (Nat.not_lt_zero i))
  have ebt : buildTopo g v = [] ++ d := e
  rw [List.nil_append] at ebt
  refine ⟨?_, ?_, ?_⟩
  · rw [ebt]; simpa using nd
  · intro u
    constructor
    · intro hu
      rw [ebt] at hu
      exact re u hu
    · intro hr
      induction hr with
      | refl =>
        rw [ebt]; simpa using hvm
      | step _ hc ih =>
        have hord : OrderOK g (buildTopo g v) := by rw [ebt]; simpa using ord
        exact orderOK_closed hord _ ih _ hc
  · rw [ebt]; simpa using ord

/-- Claim C2 witness: the traversal specification applied to the concrete
diamond graph from terminal `z`. -/
theorem backward_topo_order_spec_witness :
    WF diamondG ∧ 2 < diamondG.length ∧ (buildTopo diamondG 2).Nodup :=
  ⟨by decide, by decide, (backward_topo_order_spec diamondG (by decide) 2 (by decide)).1⟩

end Zengrad
